import Mathlib

/-!
Verification of the nutricoach extraction-to-advice pipeline.

Shallow embedding of the core pipeline of the repository:
`src/extraction/pdf_extractor.py`, `src/engine/rule_engine.py` and
`src/engine/plan_generator.py`.  Python strings are modelled as Lean
`String`/`List Char`; Python `None` as `Option.none`; dictionaries read
from the YAML rule table as structures with `Option` fields (a key that
is absent maps to `none`); exceptions as `Except String`.
-/

namespace NutriCoach

/-! ## Python string primitives -/

/-- Python whitespace used by `str.strip`, `str.split()` and the regex
class `\s` (ASCII range: space, tab, newline, carriage return, vertical
tab, form feed). -/
def pyWs (c : Char) : Bool :=
  c.toNat == 32 || c.toNat == 9 || c.toNat == 10 || c.toNat == 13 ||
    c.toNat == 11 || c.toNat == 12

/-- ASCII lower-casing of one character, as Python `str.lower` acts on the
ASCII characters occurring in this pipeline. -/
def lowerChar (c : Char) : Char :=
  if 65 ≤ c.toNat ∧ c.toNat ≤ 90 then Char.ofNat (c.toNat + 32) else c

/-- ASCII upper-casing of one character, as Python `str.upper` acts on the
ASCII characters occurring in this pipeline. -/
def upperChar (c : Char) : Char :=
  if 97 ≤ c.toNat ∧ c.toNat ≤ 122 then Char.ofNat (c.toNat - 32) else c

def lowerL (l : List Char) : List Char := l.map lowerChar

def upperL (l : List Char) : List Char := l.map upperChar

def stripLft (l : List Char) : List Char := l.dropWhile pyWs

def stripRgt (l : List Char) : List Char := (l.reverse.dropWhile pyWs).reverse

/-- Python `str.strip()` on the character list. -/
def stripL (l : List Char) : List Char := stripRgt (stripLft l)

def pyStrip (s : String) : String := String.mk (stripL s.data)

def pyLower (s : String) : String := String.mk (lowerL s.data)

def pyUpper (s : String) : String := String.mk (upperL s.data)

/-- `startsL l p`: the list `l` starts with the pattern `p`. -/
def startsL : List Char → List Char → Bool
  | _, [] => true
  | [], _ :: _ => false
  | c :: cs, d :: ds => c == d && startsL cs ds

/-- `hasSubL l p`: the pattern `p` occurs contiguously inside `l`
(Python `p in l` on strings). -/
def hasSubL : List Char → List Char → Bool
  | [], p => startsL [] p
  | c :: t, p => startsL (c :: t) p || hasSubL t p

/-- Python `pat in s` for strings. -/
def pyIn (pat s : String) : Bool := hasSubL s.data pat.data

/-! ## Risk normalizer (`RuleEngine._normalize_risk`) -/

/-- Embeds `RuleEngine._normalize_risk` of `src/engine/rule_engine.py`:
`None`/empty is unresolved, otherwise the stripped lower-cased string is
tested for the substrings "high risk", "typical", "enhanced" in that
order, then for exact equality with "risk". -/
def normalize_risk (result : Option String) : Option String :=
  match result with
  | none => none
  | some s =>
    if s == "" then none
    else
      let r := pyLower (pyStrip s)
      if pyIn "high risk" r then some "High Risk"
      else if pyIn "typical" r then some "Typical"
      else if pyIn "enhanced" r then some "Enhanced"
      else if r == "risk" then some "Risk"
      else none

/-- Case-insensitive substring containment, the claim's reading: the
pattern occurs in the input compared without regard to letter case. -/
def ciContains (s pat : String) : Bool :=
  hasSubL (lowerL s.data) (lowerL pat.data)

/-- The Risk Normalizer as the specification states it: case-insensitive
substring containment checks on the raw input in priority order
high risk, typical, enhanced; then exact equality with "risk" after
trimming and lower-casing; anything else (and absent input) is absent. -/
def normalizeRiskClaim (result : Option String) : Option String :=
  match result with
  | none => none
  | some s =>
    if ciContains s "high risk" then some "High Risk"
    else if ciContains s "typical" then some "Typical"
    else if ciContains s "enhanced" then some "Enhanced"
    else if pyLower (pyStrip s) == "risk" then some "Risk"
    else none

/-- The first character of the pattern, if any, is not whitespace. -/
def headNotWs (p : List Char) : Bool :=
  match p with
  | [] => true
  | c :: _ => !pyWs c

/-! ## Data model of the rule engine (`src/engine/rule_engine.py`) -/

/-- Container for one gene's info (`GeneData` of
`src/extraction/pdf_extractor.py`): name, 1-based page, context snippet,
optional trait and result. -/
structure GeneData where
  name : String
  page : Nat
  context : String
  trait : Option String
  result : Option String
deriving Repr, DecidableEq

/-- One entry of a rule mapping's `supplements` list: either a YAML dict
with optional `name`/`note` keys, or a plain string (the plan generator
branches on `isinstance(supp, dict)`). -/
inductive Supp where
  | dict : Option String → Option String → Supp
  | str : String → Supp
deriving Repr, DecidableEq

/-- One risk-level mapping of the YAML rule table.  Every key is optional;
`none` models an absent (or null) key, matching the `mapping.get(...)`
reads in the code. -/
structure Mapping where
  action : Option String
  foods : Option (List String)
  supplements : Option (List Supp)
  fitness_notes : Option String
  lifestyle : Option (List String)
  explanation : Option String
  priority : Option Int
deriving Repr, DecidableEq

/-- One gene's entry in the YAML rule table: optional `category` and
optional `mappings` dict from risk key to `Mapping`. -/
structure RuleEntry where
  category : Option String
  mappings : Option (List (String × Mapping))
deriving Repr, DecidableEq

/-- Python `dict.get` on an association list (first binding wins, as keys
of a parsed YAML dict are unique). -/
def dget {α : Type} (m : List (String × α)) (k : String) : Option α :=
  (m.find? (fun p => p.1 == k)).map Prod.snd

/-- Python truthiness of a rule-table entry dict (`if not rule_entry`):
true when at least one of its keys is present. -/
def entryTruthy (e : RuleEntry) : Bool :=
  e.category.isSome || e.mappings.isSome

/-- Python truthiness of a mapping dict (`if not mapping`): true when at
least one of its keys is present. -/
def mappingTruthy (m : Mapping) : Bool :=
  m.action.isSome || m.foods.isSome || m.supplements.isSome ||
    m.fitness_notes.isSome || m.lifestyle.isSome || m.explanation.isSome ||
    m.priority.isSome

/-- `GeneRuleAdvice` of `src/engine/rule_engine.py`: structured rule-based
recommendation for a single gene and risk level. -/
structure GeneRuleAdvice where
  gene : String
  category : String
  risk : String
  action : String
  foods : List String
  supplements : List Supp
  fitness_notes : Option String
  lifestyle : List String
  explanation : String
  priority : Int
deriving Repr, DecidableEq

/-- An element of the list passed to `apply_rules`: either a `GeneData`
object or a plain dict with keys `gene` and `risk`. -/
inductive Obs where
  | gd : GeneData → Obs
  | dict : String → Option String → Obs
deriving Repr, DecidableEq

/-- The gene symbol `apply_rules` reads from an observation
(`g["gene"]` for a dict, `g.name` for a `GeneData`). -/
def obsGene : Obs → String
  | .gd g => g.name
  | .dict g _ => g

/-- The raw risk string `apply_rules` reads from an observation
(`g["risk"]` for a dict, `g.result` for a `GeneData`). -/
def obsRisk : Obs → Option String
  | .gd g => g.result
  | .dict _ r => r

/-- The body of the `apply_rules` loop for one observation: `none` when
the iteration hits a `continue`, `some advice` when it appends. -/
def applyStep (rules : List (String × RuleEntry)) (o : Obs) :
    Option GeneRuleAdvice :=
  match dget rules (pyUpper (obsGene o)) with
  | none => none
  | some e =>
    if entryTruthy e = false then none
    else
      match normalize_risk (obsRisk o) with
      | none => none
      | some risk_key =>
        match dget (e.mappings.getD []) risk_key with
        | none => none
        | some m =>
          if mappingTruthy m = false then none
          else
            some (GeneRuleAdvice.mk (pyUpper (obsGene o))
              (e.category.getD "Unknown")
              risk_key (m.action.getD "") (m.foods.getD [])
              (m.supplements.getD []) m.fitness_notes (m.lifestyle.getD [])
              (m.explanation.getD "") (m.priority.getD 0))

/-- Stable insertion of `a` into a list sorted descending by `key`:
`a` goes after every element whose key is strictly greater, i.e. exactly
where Python's stable `list.sort(key=..., reverse=True)` leaves it
relative to earlier input. -/
def insD {α : Type} (key : α → Int) (a : α) : List α → List α
  | [] => [a]
  | b :: t => if key a < key b then b :: insD key a t else a :: b :: t

/-- Stable sort, descending by `key` (the behaviour of Python
`list.sort(key=..., reverse=True)`). -/
def sortD {α : Type} (key : α → Int) : List α → List α
  | [] => []
  | a :: t => insD key a (sortD key t)

/-- Embeds `RuleEngine.apply_rules` of `src/engine/rule_engine.py`: one
pass over the observations appending at most one advice each, then a
stable sort by priority, highest first. -/
def apply_rules (rules : List (String × RuleEntry)) (genes : List Obs) :
    List GeneRuleAdvice :=
  sortD (fun a => a.priority) (genes.filterMap (applyStep rules))

/-! ## Plan aggregation (`src/engine/plan_generator.py`) -/

/-- `NutritionItem` of `src/engine/models.py`. -/
structure NutritionItem where
  title : String
  description : String
  foods_to_focus : List String
  foods_to_limit : List String
  related_genes : List String
  priority : Int
deriving Repr, DecidableEq

/-- `FitnessItem` of `src/engine/models.py`. -/
structure FitnessItem where
  title : String
  description : String
  focus : List String
  frequency_per_week : Option Int
  related_genes : List String
  priority : Int
deriving Repr, DecidableEq

/-- `SupplementItem` of `src/engine/models.py` (`name` is optional since a
dict supplement entry may lack a `name` key). -/
structure SupplementItem where
  name : Option String
  description : String
  typical_dosage : Option String
  timing : Option String
  related_genes : List String
  priority : Int
deriving Repr, DecidableEq

/-- `LifestyleItem` of `src/engine/models.py`. -/
structure LifestyleItem where
  title : String
  description : String
  habits : List String
  related_genes : List String
  priority : Int
deriving Repr, DecidableEq

/-- `ComprehensiveHealthPlan` of `src/engine/models.py`. -/
structure ComprehensiveHealthPlan where
  nutrition : List NutritionItem
  fitness : List FitnessItem
  supplements : List SupplementItem
  lifestyle : List LifestyleItem
  summary : Option String
deriving Repr, DecidableEq

/-- Python `x or y` on strings (empty string is falsy). -/
def strOr (x y : String) : String := if x == "" then y else x

/-- Python truthiness of an optional string (`None` and `""` are falsy). -/
def optStrTruthy (o : Option String) : Bool :=
  match o with
  | some t => t != ""
  | none => false

/-- `supp.get("name") if isinstance(supp, dict) else str(supp)`. -/
def suppName : Supp → Option String
  | .dict n _ => n
  | .str s => some s

/-- `supp.get("note") if isinstance(supp, dict) else ""`. -/
def suppNote : Supp → Option String
  | .dict _ n => n
  | .str _ => some ""

/-- The `description=note or f"Suggested for {gene_label} ({advice.risk})."`
argument of the supplement item. -/
def suppDesc (a : GeneRuleAdvice) (s : Supp) : String :=
  if optStrTruthy (suppNote s) then (suppNote s).getD ""
  else "Suggested for " ++ a.gene ++ " (" ++ a.risk ++ ")."

/-- Nutrition items one advice record appends inside the
`generate_plan` loop (`if advice.foods: ...`). -/
def nutritionOf (a : GeneRuleAdvice) : List NutritionItem :=
  if a.foods.isEmpty then []
  else [NutritionItem.mk (a.gene ++ ": " ++ a.category)
    (strOr a.explanation a.action) a.foods [] [a.gene] a.priority]

/-- Supplement items one advice record appends inside the
`generate_plan` loop (`if advice.supplements: for supp in ...`). -/
def supplementsOf (a : GeneRuleAdvice) : List SupplementItem :=
  if a.supplements.isEmpty then []
  else a.supplements.map (fun s =>
    SupplementItem.mk (suppName s) (suppDesc a s) none none [a.gene]
      a.priority)

/-- Fitness items one advice record appends inside the
`generate_plan` loop (`if advice.fitness_notes: ...`). -/
def fitnessOf (a : GeneRuleAdvice) : List FitnessItem :=
  if optStrTruthy a.fitness_notes then
    [FitnessItem.mk (a.gene ++ "-driven training focus")
      (a.fitness_notes.getD "") [] none [a.gene] a.priority]
  else []

/-- Lifestyle items one advice record appends inside the
`generate_plan` loop (`if advice.lifestyle: ...`). -/
def lifestyleOf (a : GeneRuleAdvice) : List LifestyleItem :=
  if a.lifestyle.isEmpty then []
  else [LifestyleItem.mk (a.gene ++ ": lifestyle focus")
    (strOr a.explanation a.action) a.lifestyle [a.gene] a.priority]

/-- Embeds `PlanGenerator.generate_plan` of `src/engine/plan_generator.py`:
one pass over the advice records appending to the four sections, then each
section is stably sorted by priority, highest first; `summary` stays
unset. -/
def generate_plan (advice_list : List GeneRuleAdvice) :
    ComprehensiveHealthPlan :=
  ComprehensiveHealthPlan.mk
    (sortD (fun x => x.priority) (advice_list.flatMap nutritionOf))
    (sortD (fun x => x.priority) (advice_list.flatMap fitnessOf))
    (sortD (fun x => x.priority) (advice_list.flatMap supplementsOf))
    (sortD (fun x => x.priority) (advice_list.flatMap lifestyleOf))
    none

/-- The supplement item built for one entry of a record's `supplements`
sequence, as the claim states it: name from the entry, description the
entry's note when present (non-empty), otherwise
"Suggested for (gene) ((risk)).", related genes the singleton of the
record's gene, priority the record's priority. -/
def suppItemClaim (a : GeneRuleAdvice) (s : Supp) : SupplementItem :=
  SupplementItem.mk (suppName s)
    (match suppNote s with
     | some t =>
        if t == "" then "Suggested for " ++ a.gene ++ " (" ++ a.risk ++ ")."
        else t
     | none => "Suggested for " ++ a.gene ++ " (" ++ a.risk ++ ").")
    none none [a.gene] a.priority

/-! ## Report text extraction (`src/extraction/pdf_extractor.py`) -/

/-- One page of the PDF as the pdfplumber library exposes it to the code:
`page.extract_text()` may yield no text (modelled `none`) and
`page.extract_table()` yields the page's primary table — a list of rows
of optional cell strings — or nothing. -/
structure Page where
  raw : Option String
  table : Option (List (List (Option String)))
deriving Repr, DecidableEq

/-- Embeds `PDFExtractor.load_pdf_text`: collects `extract_text() or ""`
for every page and raises `ValueError` when the collected list is empty
(`if not self._pages_text`). -/
def load_pdf_text (pdf : List Page) : Except String (List String) :=
  let pages_text := pdf.map (fun p => p.raw.getD "")
  if pages_text.isEmpty then
    Except.error "No text extracted from PDF. Check the file."
  else Except.ok pages_text

/-- Regex word characters (`\w` over ASCII): letters, digits, underscore. -/
def isWordChar (c : Char) : Bool :=
  if (65 ≤ c.toNat ∧ c.toNat ≤ 90) ∨ (97 ≤ c.toNat ∧ c.toNat ≤ 122) ∨
      (48 ≤ c.toNat ∧ c.toNat ≤ 57) ∨ c.toNat = 95 then true else false

/-- `[A-Za-z]`. -/
def isAl (c : Char) : Bool :=
  if (65 ≤ c.toNat ∧ c.toNat ≤ 90) ∨ (97 ≤ c.toNat ∧ c.toNat ≤ 122)
  then true else false

/-- `[A-Za-z ]`. -/
def isAlSp (c : Char) : Bool := isAl c || c == ' '

/-- Case-insensitive literal prefix match (the `re.IGNORECASE` flag). -/
def startsCI : List Char → List Char → Bool
  | _, [] => true
  | [], _ :: _ => false
  | c :: cs, d :: ds => (lowerChar c == lowerChar d) && startsCI cs ds

/-- Zero-width boundary after a match of a pattern ending in a word
character: next character absent or not a word character. -/
def boundaryOk (rest : List Char) : Bool :=
  match rest with
  | [] => true
  | c :: _ => !isWordChar c

/-- Leftmost index of a case-insensitive whole-word occurrence of `gene`
(the search of `re.compile(rf"\b{gene}\b", re.IGNORECASE)`; the tracked
gene symbols start and end with word characters, so `\b` amounts to the
neighbouring characters not being word characters). `prev` is the
character before the current position, `i` the current index. -/
def findWordCI (gene : List Char) : List Char → Option Char → Nat → Option Nat
  | [], _, _ => none
  | c :: t, prev, i =>
      if (match prev with | none => true | some p => !isWordChar p)
          && startsCI (c :: t) gene
          && boundaryOk ((c :: t).drop gene.length)
      then some i
      else findWordCI gene t (some c) (i + 1)

/-- `text[start:end].replace("\n", " ")` for the context snippet. -/
def snippetOf (text : List Char) (s e : Nat) : List Char :=
  ((text.drop s).take (e - s)).map (fun c => if c == '\n' then ' ' else c)

/-- The body of `PDFExtractor.find_gene`'s page loop, carrying the
zero-based page index. -/
def find_gene_from (gene_name : String) : List String → Nat → Option GeneData
  | [], _ => none
  | text :: rest, page_idx =>
      match findWordCI gene_name.data text.data none 0 with
      | some i =>
          let e := i + gene_name.data.length
          let start := i - 250
          let stop := min (e + 250) text.data.length
          some (GeneData.mk gene_name (page_idx + 1)
            (String.mk (snippetOf text.data start stop)) none none)
      | none => find_gene_from gene_name rest (page_idx + 1)

/-- Embeds `PDFExtractor.find_gene`: first whole-word occurrence of the
gene across pages in order, with a context window clipped at 250
characters each side and newlines replaced by spaces. -/
def find_gene (pages : List String) (gene_name : String) : Option GeneData :=
  find_gene_from gene_name pages 0

/-- `PDFExtractor.PRIORITY_GENES`. -/
def PRIORITY_GENES : List String :=
  ["BCMO1", "MCM6", "FTO", "ADRB2", "ACTN3", "CYP1A2", "IL6", "ALDH2",
   "TCF7L2", "BDNF"]

/-- Class-attribute lookup on `PDFExtractor` for its gene-list attributes:
the class defines `PRIORITY_GENES` and nothing else of that shape, so any
other name fails (Python raises `AttributeError`). -/
def pdfExtractorGeneListAttr (attr : String) : Option (List String) :=
  if attr == "PRIORITY_GENES" then some PRIORITY_GENES else none

/-- Embeds `PDFExtractor.find_priority_genes`: the loop iterates over
`self.PRIMARY_GENES`, an attribute that does not exist on the class (the
list is named `PRIORITY_GENES`), so the attribute lookup raises before
any gene is located. -/
def find_priority_genes (pages : List String) : Except String (List GeneData) :=
  match pdfExtractorGeneListAttr "PRIMARY_GENES" with
  | none => Except.error
      "AttributeError: PDFExtractor object has no attribute PRIMARY_GENES"
  | some gs => Except.ok (gs.filterMap (find_gene pages))

/-- What the specification says `find_priority_genes` does: run the
single-gene locate for each tracked symbol in symbol-list order, skipping
symbols not found. -/
def findPriorityGenesClaim (pages : List String) : List GeneData :=
  PRIORITY_GENES.filterMap (find_gene pages)

/-! ### The context-heuristic regex parser -/

/-- Length of the maximal run of regex whitespace at the front. -/
def spaceRun : List Char → Nat
  | [] => 0
  | c :: t => if pyWs c then spaceRun t + 1 else 0

/-- Length of the maximal run of characters satisfying `p` at the front. -/
def classRun (p : Char → Bool) : List Char → Nat
  | [] => 0
  | c :: t => if p c then classRun p t + 1 else 0

/-- After the marker's, try `\s+` of k spaces (greedy, backtracking from
the maximal run down) followed by the greedy group `([A-Za-z ]+)`. -/
def resultGroup : Nat → List Char → Option (List Char)
  | 0, _ => none
  | k + 1, rest =>
      let tail := rest.drop (k + 1)
      let r := classRun isAlSp tail
      if r == 0 then resultGroup k rest else some (tail.take r)

/-- Matches `\s+ ⬤ \s+ ([A-Za-z ]+)` at the front of `l`, returning the
captured result group.  The marker is not whitespace so the first `\s+`
can only be the maximal run; the second backtracks as the regex engine
does. -/
def matchAfterGene (l : List Char) : Option (List Char) :=
  let k1 := spaceRun l
  if k1 == 0 then none
  else
    match l.drop k1 with
    | [] => none
    | c :: rest2 =>
        if c == '⬤' then
          let k2 := spaceRun rest2
          if k2 == 0 then none else resultGroup k2 rest2
        else none

/-- Lazy expansion of the trait group `([A-Za-z][A-Za-z ]+?)`: having
fixed the start character `c`, try `e` extra class characters from `t`
(smallest first, as `+?` does), then `\s+`, the gene literal
(case-insensitive) and `matchAfterGene`.  `budget` bounds `e` by the
class run of `t`, so every tried prefix lies in the class. -/
def tryExtras (gene : List Char) (c : Char) (t : List Char) :
    Nat → Nat → Option (List Char × List Char)
  | _, 0 => none
  | e, budget + 1 =>
      let g1 := c :: t.take e
      let rest := t.drop e
      let k := spaceRun rest
      let attempt : Option (List Char × List Char) :=
        if k == 0 then none
        else if startsCI (rest.drop k) gene then
          match matchAfterGene ((rest.drop k).drop gene.length) with
          | some g2 => some (g1, g2)
          | none => none
        else none
      match attempt with
      | some r => some r
      | none => tryExtras gene c t (e + 1) budget

/-- The primary pattern
`([A-Za-z][A-Za-z ]+?)\s+{gene}\s+⬤\s+([A-Za-z ]+)` anchored at the
front of `l`: returns the two captured groups. -/
def tryStart (gene : List Char) : List Char → Option (List Char × List Char)
  | [] => none
  | c :: t =>
      if isAl c then
        let m := classRun isAlSp t
        if m == 0 then none else tryExtras gene c t 1 m
      else none

/-- `re.search` of the primary pattern: leftmost start position wins. -/
def searchGenePat (gene : List Char) : List Char → Option (List Char × List Char)
  | [] => none
  | c :: t =>
      match tryStart gene (c :: t) with
      | some r => some r
      | none => searchGenePat gene t

/-- The alternation of the secondary pattern, in source order. -/
def RESULT_WORDS : List String :=
  ["High risk", "Typical", "Enhanced", "Moderate", "Slightly Enhanced"]

/-- First alternative matching case-insensitively at this position; the
captured group is the original text, not the pattern's casing. -/
def matchAlt (l : List Char) : Option (List Char) :=
  match RESULT_WORDS.find? (fun w => startsCI l w.data) with
  | some w => some (l.take w.data.length)
  | none => none

/-- `re.search` of the secondary pattern
`⬤\s+(High risk|Typical|Enhanced|Moderate|Slightly Enhanced)`
(case-insensitive): scan for the marker, then `\s+` and an alternative;
on failure continue scanning to the right. -/
def searchResultPat : List Char → Option (List Char)
  | [] => none
  | c :: t =>
      if c == '⬤' then
        let k := spaceRun t
        if k == 0 then searchResultPat t
        else
          match matchAlt (t.drop k) with
          | some g => some g
          | none => searchResultPat t
      else searchResultPat t

/-- Leftmost index of an occurrence of `pat` in `l` (Python `str.find`;
`none` stands for the −1 of a failed find). -/
def findSubIdx : List Char → List Char → Option Nat
  | [], pat => if startsL [] pat then some 0 else none
  | c :: t, pat =>
      if startsL (c :: t) pat then some 0
      else (findSubIdx t pat).map (fun i => i + 1)

/-- Embeds `PDFExtractor._parse_trait_result_from_context`: the primary
pattern's two stripped groups, else the secondary pattern's stripped
result group together with the stripped raw text in the 80-character
window before the gene's position (if non-empty). -/
def parse_trait_result_from_context (gene_name : String) (context : String) :
    Option String × Option String :=
  match searchGenePat gene_name.data context.data with
  | some (g1, g2) =>
      (some (String.mk (stripL g1)), some (String.mk (stripL g2)))
  | none =>
      let result_raw :=
        (searchResultPat context.data).map (fun g => String.mk (stripL g))
      let trait :=
        match findSubIdx (upperL context.data) (upperL gene_name.data) with
        | some gene_pos =>
            let start := gene_pos - 80
            let pre := stripL ((context.data.drop start).take (gene_pos - start))
            if pre.isEmpty then none else some (String.mk pre)
        | none => none
      (trait, result_raw)

/-- The boilerplate header line stripped from the front of a trait. -/
def HEADER_LINE : String := "Summary of Results Trait Genes Result"

/-- The leading risk words stripped from the front of a trait, in source
order; each test runs on the already-updated trait. -/
def NOISE_WORDS : List String :=
  ["Typical ", "High risk ", "Enhanced ", "Moderate ", "Slightly Enhanced "]

def dropNoise (t : String) : String :=
  NOISE_WORDS.foldl
    (fun t n =>
      if startsL t.data n.data
      then String.mk (stripL (t.data.drop n.data.length)) else t) t

/-- Helper of `wordsL`: `acc` holds the characters of the word in
progress, reversed. -/
def wordsAux : List Char → List Char → List (List Char)
  | [], acc => if acc.isEmpty then [] else [acc.reverse]
  | c :: t, acc =>
      if pyWs c then
        if acc.isEmpty then wordsAux t [] else acc.reverse :: wordsAux t []
      else wordsAux t (c :: acc)

/-- Python `str.split()` with no argument: whitespace-separated words,
empties discarded. -/
def wordsL (l : List Char) : List (List Char) := wordsAux l []

/-- `" ".join(ws)`. -/
def joinWords (ws : List (List Char)) : String :=
  String.intercalate " " (ws.map String.mk)

/-- Embeds `PDFExtractor._clean_trait_result`: strip the boilerplate
header and leading risk words from the trait, truncate a trait of six or
more words to its first four and a result of more than three words to
its first three; empty strings become absent. -/
def clean_trait_result (trait result : Option String) :
    Option String × Option String :=
  let traitOut :=
    if optStrTruthy trait then
      let t0 := pyStrip (trait.getD "")
      let t1 :=
        if startsL t0.data HEADER_LINE.data
        then pyStrip (String.mk (t0.data.drop HEADER_LINE.data.length))
        else t0
      let t2 := dropNoise t1
      let ws := wordsL t2.data
      let t3 := if 6 ≤ ws.length then joinWords (ws.take 4) else t2
      if t3 == "" then none else some t3
    else trait
  let resultOut :=
    if optStrTruthy result then
      let r0 := pyStrip (result.getD "")
      let ws := wordsL r0.data
      let r1 := if 3 < ws.length then joinWords (ws.take 3) else r0
      if r1 == "" then none else some r1
    else result
  (traitOut, resultOut)

/-- Embeds `PDFExtractor.get_priority_genes_with_summary`: locate each
tracked gene, then infer trait and result from the located context via
the heuristic parser followed by cleaning.  (The method never consults
the summary-table rows.) -/
def get_priority_genes_with_summary (pdf : List Page) :
    Except String (List GeneData) :=
  match load_pdf_text pdf with
  | Except.error e => Except.error e
  | Except.ok pages =>
      Except.ok (PRIORITY_GENES.filterMap (fun gene_name =>
        match find_gene pages gene_name with
        | none => none
        | some base =>
            let pr := parse_trait_result_from_context gene_name base.context
            let cl := clean_trait_result pr.1 pr.2
            some (GeneData.mk base.name base.page base.context cl.1 cl.2)))

/-- The observation list of the combined view, `[]` when loading raises
(used only to state membership). -/
def priorityGenesView (pdf : List Page) : List GeneData :=
  match get_priority_genes_with_summary pdf with
  | Except.ok l => l
  | Except.error _ => []

/-! ### The structured table parser -/

/-- One structured-table row after expansion (`{trait, gene, result,
page}` with a 1-based page). -/
structure SummaryRow where
  trait : String
  gene : String
  result : String
  page : Nat
deriving Repr, DecidableEq

/-- The zero-based page indexes the parser visits (pages 2–5, 1-based). -/
def SUMMARY_PAGE_INDEXES : List Nat := [1, 2, 3, 4]

/-- `h.strip() if h else ""` on a header cell. -/
def headerCell (c : Option String) : String :=
  match c with
  | some s => pyStrip s
  | none => ""

/-- `(cell or "")` on a body cell. -/
def cellStr (c : Option String) : String := c.getD ""

/-- Python `list.index`: leftmost index of an equal element. -/
def pyIndex? (x : String) : List String → Option Nat
  | [] => none
  | h :: t => if h == x then some 0 else (pyIndex? x t).map (fun i => i + 1)

/-- Python `str.split(",")`: split on every comma, keeping empties. -/
def splitOnComma : List Char → List (List Char)
  | [] => [[]]
  | c :: t =>
      if c == ',' then [] :: splitOnComma t
      else
        match splitOnComma t with
        | [] => [[c]]
        | w :: ws => (c :: w) :: ws

/-- `[g.strip() for g in genes.split(",") if g.strip()]`. -/
def splitGenes (genes : String) : List String :=
  ((splitOnComma genes.data).map (fun g => String.mk (stripL g))).filter
    (fun g => g != "")

/-- The body-row loop of `parse_summary_tables`, for an accepted header
with column indexes `tc`, `gc`, `rc`: skip an empty row, pad to header
length with empty strings, strip the three fields, discard the row when
one is empty, else one `SummaryRow` per comma-separated gene token. -/
def parseRowCode (idx : Nat) (header : List String) (tc gc rc : Nat)
    (raw_row : List (Option String)) : List SummaryRow :=
  if raw_row.isEmpty then []
  else
    let row := raw_row ++ List.replicate (header.length - raw_row.length) (some "")
    let trait := pyStrip (cellStr (row.getD tc none))
    let genes := pyStrip (cellStr (row.getD gc none))
    let result := pyStrip (cellStr (row.getD rc none))
    if trait == "" || genes == "" || result == "" then []
    else (splitGenes genes).map (fun g => SummaryRow.mk trait g result (idx + 1))

/-- One page of `parse_summary_tables`: no table or an empty table is
skipped; the first row is the header (cells stripped); the three column
indexes are looked up as Python `list.index` does, a missing one skipping
the page; then the body rows are expanded. -/
def parsePageTables (idx : Nat) (page : Page) : List SummaryRow :=
  match page.table with
  | none => []
  | some table =>
      if table.isEmpty then []
      else
        let header := (table.headD []).map headerCell
        match pyIndex? "Trait" header, pyIndex? "Genes" header,
            pyIndex? "Result" header with
        | some tc, some gc, some rc =>
            table.tail.flatMap (parseRowCode idx header tc gc rc)
        | _, _, _ => []

/-- Embeds `PDFExtractor.parse_summary_tables`: the configured page
indexes in order, those beyond the document skipped, each page's rows in
order. -/
def parse_summary_tables (pdf : List Page) : List SummaryRow :=
  (SUMMARY_PAGE_INDEXES.filter (fun idx => idx < pdf.length)).flatMap
    (fun idx => parsePageTables idx (pdf.getD idx (Page.mk none none)))

/-- One body row as the claim states it: pad to header length, trim the
three fields, discard the row when one is empty after trimming, else emit
one SummaryRow per trimmed non-empty comma-separated gene token. -/
def parseRowClaim (idx : Nat) (header : List String)
    (raw_row : List (Option String)) : List SummaryRow :=
  let row := raw_row ++ List.replicate (header.length - raw_row.length) (some "")
  let tc := (pyIndex? "Trait" header).getD 0
  let gc := (pyIndex? "Genes" header).getD 0
  let rc := (pyIndex? "Result" header).getD 0
  let trait := pyStrip (cellStr (row.getD tc none))
  let genes := pyStrip (cellStr (row.getD gc none))
  let result := pyStrip (cellStr (row.getD rc none))
  if trait == "" || genes == "" || result == "" then []
  else (splitGenes genes).map (fun g => SummaryRow.mk trait g result (idx + 1))

/-- One page as the claim states it: if the trimmed header row does not
contain all of "Trait", "Genes", "Result" (case-sensitive), the page
contributes zero rows; otherwise every body row is expanded. -/
def parsePageClaim (idx : Nat) (page : Page) : List SummaryRow :=
  match page.table with
  | none => []
  | some table =>
      let header := (table.headD []).map headerCell
      if "Trait" ∈ header ∧ "Genes" ∈ header ∧ "Result" ∈ header then
        table.tail.flatMap (parseRowClaim idx header)
      else []

/-- The Structured Table Parser as the claim states it. -/
def parseSummaryTablesClaim (pdf : List Page) : List SummaryRow :=
  (SUMMARY_PAGE_INDEXES.filter (fun idx => idx < pdf.length)).flatMap
    (fun idx => parsePageClaim idx (pdf.getD idx (Page.mk none none)))

/-- A two-page document whose summary table (page 2) reports a result
for BCMO1 different from the marker text on page 1, separating the
table-backed and the context-heuristic resolution strategies. -/
def pdfDivergent : List Page :=
  [Page.mk (some "Vitamin A Requirement BCMO1 ⬤ High risk") none,
   Page.mk none (some [[some "Trait", some "Genes", some "Result"],
                       [some "Vitamin A", some "BCMO1", some "Typical"]])]

/-- The same document with its tables removed (page texts unchanged). -/
def pdfDivergentNoTable : List Page :=
  [Page.mk (some "Vitamin A Requirement BCMO1 ⬤ High risk") none,
   Page.mk none none]

/-! ### Substring containment is invariant under stripping -/

theorem hasSubL_nil_pat (l : List Char) : hasSubL l [] = true := by
  cases l <;> simp [hasSubL, startsL]

theorem hasSubL_dropWhile (w : Char → Bool) (p : List Char)
    (h : ∀ c d, w c = true → p.head? = some d → (c == d) = false) :
    ∀ l : List Char, hasSubL (l.dropWhile w) p = hasSubL l p := by
  intro l
  induction l with
  | nil => rfl
  | cons c t ih =>
    by_cases hw : w c = true
    · rw [List.dropWhile_cons_of_pos hw, ih]
      cases p with
      | nil => rw [hasSubL_nil_pat, hasSubL_nil_pat]
      | cons d p' =>
        have hcd : (c == d) = false := h c d hw rfl
        simp [hasSubL, startsL, hcd]
    · rw [List.dropWhile_cons_of_neg hw]

theorem startsL_iff (p : List Char) :
    ∀ l, startsL l p = true ↔ ∃ b, l = p ++ b := by
  induction p with
  | nil => intro l; simp [startsL]
  | cons d ds ih =>
    intro l
    cases l with
    | nil => simp [startsL]
    | cons c cs =>
      simp only [startsL, List.cons_append, Bool.and_eq_true, beq_iff_eq, ih cs]
      constructor
      · rintro ⟨rfl, b, rfl⟩; exact ⟨b, rfl⟩
      · rintro ⟨b, h⟩
        injection h with h1 h2
        exact ⟨h1, b, h2⟩

theorem hasSubL_iff (p : List Char) :
    ∀ l, hasSubL l p = true ↔ ∃ a b, l = a ++ p ++ b := by
  intro l
  induction l with
  | nil =>
    simp only [hasSubL, startsL_iff]
    constructor
    · rintro ⟨b, h⟩; exact ⟨[], b, by simpa using h⟩
    · rintro ⟨a, b, h⟩
      refine ⟨b, ?_⟩
      rcases List.append_eq_nil.mp (List.append_eq_nil.mp h.symm).1 with ⟨rfl, rfl⟩
      simpa using h
  | cons c t ih =>
    simp only [hasSubL, Bool.or_eq_true, startsL_iff, ih]
    constructor
    · rintro (⟨b, h⟩ | ⟨a, b, h⟩)
      · exact ⟨[], b, by simpa using h⟩
      · exact ⟨c :: a, b, by simp [h]⟩
    · rintro ⟨a, b, h⟩
      cases a with
      | nil => exact Or.inl ⟨b, by simpa using h⟩
      | cons x xs =>
        injection h with h1 h2
        exact Or.inr ⟨xs, b, h2⟩

theorem hasSubL_reverse (l p : List Char) :
    hasSubL l.reverse p.reverse = hasSubL l p := by
  have h : hasSubL l.reverse p.reverse = true ↔ hasSubL l p = true := by
    rw [hasSubL_iff, hasSubL_iff]
    constructor
    · rintro ⟨a, b, h⟩
      refine ⟨b.reverse, a.reverse, ?_⟩
      have := congrArg List.reverse h
      simpa [List.reverse_append, List.append_assoc] using this
    · rintro ⟨a, b, h⟩
      refine ⟨b.reverse, a.reverse, ?_⟩
      simp [h, List.reverse_append, List.append_assoc]
  cases hA : hasSubL l.reverse p.reverse <;> cases hB : hasSubL l p <;>
    simp_all

theorem head_cond_of_headNotWs (p : List Char) (h : headNotWs p = true) :
    ∀ c d, pyWs c = true → p.head? = some d → (c == d) = false := by
  intro c d hc hp
  cases p with
  | nil => exact absurd hp (by simp)
  | cons e p' =>
    have he : d = e := by simpa using hp.symm
    subst he
    have hdws : pyWs d = false := by simpa [headNotWs] using h
    by_cases hcd : c = d
    · subst hcd; rw [hc] at hdws; exact absurd hdws (by simp)
    · exact beq_false_of_ne hcd

theorem hasSubL_stripLft (l p : List Char) (hd : headNotWs p = true) :
    hasSubL (stripLft l) p = hasSubL l p :=
  hasSubL_dropWhile pyWs p (head_cond_of_headNotWs p hd) l

theorem hasSubL_stripRgt (l p : List Char) (hd : headNotWs p.reverse = true) :
    hasSubL (stripRgt l) p = hasSubL l p := by
  have h1 : hasSubL (stripRgt l) p = hasSubL (stripRgt l).reverse p.reverse := by
    rw [hasSubL_reverse]
  rw [h1]
  unfold stripRgt
  rw [List.reverse_reverse]
  rw [hasSubL_dropWhile pyWs p.reverse (head_cond_of_headNotWs _ hd) l.reverse]
  exact hasSubL_reverse l p

theorem hasSubL_stripL (l p : List Char)
    (h1 : headNotWs p = true) (h2 : headNotWs p.reverse = true) :
    hasSubL (stripL l) p = hasSubL l p := by
  unfold stripL
  rw [hasSubL_stripRgt _ _ h2, hasSubL_stripLft _ _ h1]

/-! ### Lower-casing commutes with stripping -/

theorem toNat_ofNat_valid (n : Nat) (h : n < 55296) :
    (Char.ofNat n).toNat = n := by
  have hv : n.isValidChar := Or.inl h
  unfold Char.ofNat
  simp [hv, Char.ofNatAux, Char.toNat, UInt32.toNat, UInt32.ofNatCore]

theorem pyWs_lowerChar (c : Char) : pyWs (lowerChar c) = pyWs c := by
  unfold lowerChar
  split
  case isTrue h =>
    have hv : (Char.ofNat (c.toNat + 32)).toNat = c.toNat + 32 :=
      toNat_ofNat_valid _ (by omega)
    have h1 : pyWs (Char.ofNat (c.toNat + 32)) = false := by
      simp [pyWs, hv]; omega
    have h2 : pyWs c = false := by
      simp [pyWs]; omega
    rw [h1, h2]
  case isFalse h => rfl

theorem stripLft_lowerL (l : List Char) :
    stripLft (lowerL l) = lowerL (stripLft l) := by
  induction l with
  | nil => rfl
  | cons c t ih =>
    by_cases hw : pyWs c = true
    · have hw' : pyWs (lowerChar c) = true := by rw [pyWs_lowerChar]; exact hw
      simp only [lowerL, List.map_cons, stripLft] at *
      rw [List.dropWhile_cons_of_pos hw', List.dropWhile_cons_of_pos hw]
      exact ih
    · have hw' : ¬ pyWs (lowerChar c) = true := by rw [pyWs_lowerChar]; exact hw
      simp only [lowerL, List.map_cons, stripLft] at *
      rw [List.dropWhile_cons_of_neg hw', List.dropWhile_cons_of_neg hw]
      simp [lowerL]

theorem stripRgt_lowerL (l : List Char) :
    stripRgt (lowerL l) = lowerL (stripRgt l) := by
  unfold stripRgt
  have h1 : (lowerL l).reverse = lowerL l.reverse := by
    simp [lowerL, List.map_reverse]
  rw [h1]
  have h2 : List.dropWhile pyWs (lowerL l.reverse)
      = lowerL (List.dropWhile pyWs l.reverse) := by
    have h3 := stripLft_lowerL l.reverse
    simpa [stripLft] using h3
  rw [h2]
  simp [lowerL, List.map_reverse]

theorem stripL_lowerL (l : List Char) :
    stripL (lowerL l) = lowerL (stripL l) := by
  unfold stripL
  rw [stripLft_lowerL, stripRgt_lowerL]

theorem hasSubL_lower_stripL (d p : List Char)
    (h1 : headNotWs p = true) (h2 : headNotWs p.reverse = true) :
    hasSubL (lowerL (stripL d)) p = hasSubL (lowerL d) p := by
  rw [← stripL_lowerL, hasSubL_stripL _ _ h1 h2]

/-! ### C1 — risk normalization -/

/-- C1: for every input string the normalizer checks case-insensitive
substring containment in this exact priority order — contains "high risk"
maps to `High Risk`; else contains "typical" maps to `Typical`; else
contains "enhanced" maps to `Enhanced`; else, after trimming and
lower-casing, exact equality with "risk" maps to `Risk`; anything else
(and absent or empty input) maps to absent. -/
theorem risk_normalization_matches_claim (r : Option String) :
    normalize_risk r = normalizeRiskClaim r := by
  cases r with
  | none => rfl
  | some s =>
    by_cases hs : s = ""
    · subst hs; rfl
    · have hbeq : (s == "") = false := by simp [hs]
      have e1 : pyIn "high risk" (pyLower (pyStrip s)) = ciContains s "high risk" := by
        have hp : lowerL ("high risk".data) = "high risk".data := by decide
        show hasSubL (lowerL (stripL s.data)) ("high risk".data)
            = hasSubL (lowerL s.data) (lowerL ("high risk".data))
        rw [hp]
        exact hasSubL_lower_stripL s.data ("high risk".data) (by decide) (by decide)
      have e2 : pyIn "typical" (pyLower (pyStrip s)) = ciContains s "typical" := by
        have hp : lowerL ("typical".data) = "typical".data := by decide
        show hasSubL (lowerL (stripL s.data)) ("typical".data)
            = hasSubL (lowerL s.data) (lowerL ("typical".data))
        rw [hp]
        exact hasSubL_lower_stripL s.data ("typical".data) (by decide) (by decide)
      have e3 : pyIn "enhanced" (pyLower (pyStrip s)) = ciContains s "enhanced" := by
        have hp : lowerL ("enhanced".data) = "enhanced".data := by decide
        show hasSubL (lowerL (stripL s.data)) ("enhanced".data)
            = hasSubL (lowerL s.data) (lowerL ("enhanced".data))
        rw [hp]
        exact hasSubL_lower_stripL s.data ("enhanced".data) (by decide) (by decide)
      simp only [normalize_risk, normalizeRiskClaim, hbeq, e1, e2, e3,
        Bool.false_eq_true, if_false]

/-! ### The stable descending sort -/

theorem insD_perm {α : Type} (key : α → Int) (a : α) (l : List α) :
    List.Perm (insD key a l) (a :: l) := by
  induction l with
  | nil => rfl
  | cons b t ih =>
    unfold insD
    by_cases h : key a < key b
    · rw [if_pos h]
      exact List.Perm.trans (List.Perm.cons b ih) (List.Perm.swap a b t)
    · rw [if_neg h]

theorem sortD_perm {α : Type} (key : α → Int) (l : List α) :
    List.Perm (sortD key l) l := by
  induction l with
  | nil => rfl
  | cons a t ih =>
    exact List.Perm.trans (insD_perm key a (sortD key t)) (List.Perm.cons a ih)

theorem insD_pairwise {α : Type} (key : α → Int) (a : α) (l : List α)
    (h : l.Pairwise (fun x y => key y ≤ key x)) :
    (insD key a l).Pairwise (fun x y => key y ≤ key x) := by
  induction l with
  | nil => simp [insD]
  | cons b t ih =>
    rcases List.pairwise_cons.mp h with ⟨hb, ht⟩
    unfold insD
    by_cases hab : key a < key b
    · rw [if_pos hab]
      refine List.pairwise_cons.mpr ⟨?_, ih ht⟩
      intro x hx
      rcases List.mem_cons.mp ((insD_perm key a t).mem_iff.mp hx) with hx | hx
      · subst hx; exact le_of_lt hab
      · exact hb x hx
    · rw [if_neg hab]
      refine List.pairwise_cons.mpr ⟨?_, h⟩
      intro x hx
      rcases List.mem_cons.mp hx with hx | hx
      · subst hx; exact le_of_not_lt hab
      · exact le_trans (hb x hx) (le_of_not_lt hab)

theorem sortD_pairwise {α : Type} (key : α → Int) (l : List α) :
    (sortD key l).Pairwise (fun x y => key y ≤ key x) := by
  induction l with
  | nil => simp [sortD]
  | cons a t ih => exact insD_pairwise key a (sortD key t) ih

theorem insD_filter_key {α : Type} (key : α → Int) (a : α) (l : List α)
    (p : Int) :
    (insD key a l).filter (fun x => key x == p)
      = if key a == p then a :: l.filter (fun x => key x == p)
        else l.filter (fun x => key x == p) := by
  induction l with
  | nil =>
    by_cases hap : key a = p
    · have hap' : (key a == p) = true := beq_iff_eq.mpr hap
      simp [insD, hap']
    · have hap' : (key a == p) = false := beq_false_of_ne hap
      simp [insD, hap']
  | cons b t ih =>
    unfold insD
    by_cases hab : key a < key b
    · rw [if_pos hab]
      by_cases hap : key a = p
      · have hbp : (key b == p) = false := beq_false_of_ne (by omega)
        have hap' : (key a == p) = true := beq_iff_eq.mpr hap
        simp [List.filter_cons, hbp, ih, hap']
      · have hap' : (key a == p) = false := beq_false_of_ne hap
        simp [List.filter_cons, ih, hap']
    · rw [if_neg hab]
      by_cases hap : key a = p
      · have hap' : (key a == p) = true := beq_iff_eq.mpr hap
        simp [List.filter_cons, hap']
      · have hap' : (key a == p) = false := beq_false_of_ne hap
        simp [List.filter_cons, hap']

theorem sortD_filter_key {α : Type} (key : α → Int) (l : List α) (p : Int) :
    (sortD key l).filter (fun x => key x == p)
      = l.filter (fun x => key x == p) := by
  induction l with
  | nil => rfl
  | cons a t ih =>
    unfold sortD
    rw [insD_filter_key, List.filter_cons, ih]

/-! ### C2 — the Rule Matcher -/

/-- C2: `apply_rules` processes observations in input order emitting at
most one record each (the `filterMap` of the one-observation step),
silently skips an observation whose upper-cased gene is absent from the
rule table, whose risk fails normalization, or whose entry has no mapping
for the resolved canonical risk; the result is the emitted records stably
sorted by priority descending (sorted, a permutation, and equal-priority
records keep their emission order). -/
theorem rule_matcher_matches_claim (rules : List (String × RuleEntry))
    (genes : List Obs) :
    apply_rules rules genes
        = sortD (fun a => a.priority) (genes.filterMap (applyStep rules))
    ∧ (apply_rules rules genes).Pairwise
        (fun a b => b.priority ≤ a.priority)
    ∧ List.Perm (apply_rules rules genes) (genes.filterMap (applyStep rules))
    ∧ (∀ p : Int, (apply_rules rules genes).filter (fun a => a.priority == p)
        = (genes.filterMap (applyStep rules)).filter
            (fun a => a.priority == p))
    ∧ (∀ o : Obs, dget rules (pyUpper (obsGene o)) = none →
        applyStep rules o = none)
    ∧ (∀ o : Obs, normalize_risk (obsRisk o) = none →
        applyStep rules o = none)
    ∧ (∀ o : Obs, ∀ e : RuleEntry, ∀ k : String,
        dget rules (pyUpper (obsGene o)) = some e →
        normalize_risk (obsRisk o) = some k →
        dget (e.mappings.getD []) k = none → applyStep rules o = none)
    ∧ (∀ o : Obs, ∀ a : GeneRuleAdvice, applyStep rules o = some a →
        a.gene = pyUpper (obsGene o)) := by
  refine ⟨rfl, sortD_pairwise _ _, sortD_perm _ _,
    fun p => sortD_filter_key _ _ p, ?_, ?_, ?_, ?_⟩
  · intro o h
    simp [applyStep, h]
  · intro o h
    cases hd : dget rules (pyUpper (obsGene o)) with
    | none => simp [applyStep, hd]
    | some e => simp [applyStep, hd, h]
  · intro o e k h1 h2 h3
    simp [applyStep, h1, h2, h3]
  · intro o a h
    simp only [applyStep] at h
    split at h
    · exact absurd h (by simp)
    · split at h
      · exact absurd h (by simp)
      · split at h
        · exact absurd h (by simp)
        · split at h
          · exact absurd h (by simp)
          · split at h
            · exact absurd h (by simp)
            · injection h with h2
              subst h2
              rfl

/-! ### C10 — dict observations behave like GeneData observations -/

/-- C10: an element of the `apply_rules` input may be a plain dict with
keys `gene` and `risk`; it produces exactly the same advice record (or
the same silent skip) as a `GeneData` whose name is that gene and whose
result is that risk string, wherever it occurs in the input list. -/
theorem dict_observation_equiv (rules : List (String × RuleEntry))
    (gene : String) (risk : Option String) (pg : Nat) (ctx : String)
    (tr : Option String) (l1 l2 : List Obs) :
    applyStep rules (Obs.dict gene risk)
        = applyStep rules (Obs.gd (GeneData.mk gene pg ctx tr risk))
    ∧ apply_rules rules (l1 ++ Obs.dict gene risk :: l2)
        = apply_rules rules
            (l1 ++ Obs.gd (GeneData.mk gene pg ctx tr risk) :: l2) := by
  have hstep : applyStep rules (Obs.dict gene risk)
      = applyStep rules (Obs.gd (GeneData.mk gene pg ctx tr risk)) := rfl
  refine ⟨hstep, ?_⟩
  unfold apply_rules
  rw [List.filterMap_append, List.filterMap_append,
    List.filterMap_cons, List.filterMap_cons, hstep]

/-! ### C3 — plan sections are stably sorted by priority, descending -/

/-- C3: every section of the plan produced by `generate_plan` is sorted
by priority descending, is a permutation of the items appended by the
loop, and the sort is stable: for each priority value, the items of that
priority appear exactly in the order the loop appended them from the
input sequence. -/
theorem plan_sections_sorted_stable (l : List GeneRuleAdvice) :
    ((generate_plan l).nutrition.Pairwise (fun x y => y.priority ≤ x.priority)
      ∧ List.Perm (generate_plan l).nutrition (l.flatMap nutritionOf)
      ∧ ∀ p : Int, (generate_plan l).nutrition.filter
            (fun x => x.priority == p)
          = (l.flatMap nutritionOf).filter (fun x => x.priority == p))
    ∧ ((generate_plan l).fitness.Pairwise (fun x y => y.priority ≤ x.priority)
      ∧ List.Perm (generate_plan l).fitness (l.flatMap fitnessOf)
      ∧ ∀ p : Int, (generate_plan l).fitness.filter
            (fun x => x.priority == p)
          = (l.flatMap fitnessOf).filter (fun x => x.priority == p))
    ∧ ((generate_plan l).supplements.Pairwise
          (fun x y => y.priority ≤ x.priority)
      ∧ List.Perm (generate_plan l).supplements (l.flatMap supplementsOf)
      ∧ ∀ p : Int, (generate_plan l).supplements.filter
            (fun x => x.priority == p)
          = (l.flatMap supplementsOf).filter (fun x => x.priority == p))
    ∧ ((generate_plan l).lifestyle.Pairwise
          (fun x y => y.priority ≤ x.priority)
      ∧ List.Perm (generate_plan l).lifestyle (l.flatMap lifestyleOf)
      ∧ ∀ p : Int, (generate_plan l).lifestyle.filter
            (fun x => x.priority == p)
          = (l.flatMap lifestyleOf).filter (fun x => x.priority == p)) :=
  ⟨⟨sortD_pairwise _ _, sortD_perm _ _, fun p => sortD_filter_key _ _ p⟩,
   ⟨sortD_pairwise _ _, sortD_perm _ _, fun p => sortD_filter_key _ _ p⟩,
   ⟨sortD_pairwise _ _, sortD_perm _ _, fun p => sortD_filter_key _ _ p⟩,
   ⟨sortD_pairwise _ _, sortD_perm _ _, fun p => sortD_filter_key _ _ p⟩⟩

/-! ### C9 — supplement fan-out -/

theorem suppDesc_eq_claim (a : GeneRuleAdvice) (s : Supp) :
    suppDesc a s = (suppItemClaim a s).description := by
  cases s with
  | dict n note =>
    cases note with
    | none => rfl
    | some t =>
      by_cases ht : t = ""
      · subst ht; rfl
      · have h1 : (t != "") = true := by simp [ht]
        have h2 : (t == "") = false := beq_false_of_ne ht
        simp [suppDesc, suppItemClaim, suppNote, optStrTruthy, h1, h2]
  | str s' => rfl

/-- C9: for every advice record the aggregator appends exactly one
supplement item per entry of the record's `supplements` sequence — N
entries yield N items — each with name from the entry, description the
entry's note when present else the "Suggested for (gene) ((risk))."
default, related genes the singleton of the record's gene and the
record's priority; and the plan's supplements section holds exactly the
items so appended for all records. -/
theorem supplement_fanout (a : GeneRuleAdvice) (l : List GeneRuleAdvice) :
    supplementsOf a = a.supplements.map (suppItemClaim a)
    ∧ (supplementsOf a).length = a.supplements.length
    ∧ List.Perm (generate_plan l).supplements (l.flatMap supplementsOf) := by
  have hmap : supplementsOf a = a.supplements.map (suppItemClaim a) := by
    unfold supplementsOf
    by_cases h : a.supplements.isEmpty
    · rw [if_pos h]
      rw [List.isEmpty_iff.mp h]
      rfl
    · rw [if_neg h]
      apply List.map_congr_left
      intro s _
      unfold suppItemClaim
      rw [suppDesc_eq_claim a s]
      rfl
  refine ⟨hmap, ?_, sortD_perm _ _⟩
  rw [hmap, List.length_map]

/-! ### C5 — when loading the document raises -/

/-- C5 counterexample: a document whose pages all extract to empty text
does not raise; the extractor proceeds with a sequence of empty page
strings. -/
theorem all_empty_pages_load_ok :
    load_pdf_text [Page.mk none none, Page.mk (some "") none]
      = Except.ok ["", ""] := rfl

/-- C5 amended: `load_pdf_text` fails with the empty-document error
exactly when the document has no pages at all; any non-empty document
loads successfully with one (possibly empty) string per page. -/
theorem load_pdf_text_error_iff_no_pages (pdf : List Page) :
    (load_pdf_text pdf
        = Except.error "No text extracted from PDF. Check the file."
      ↔ pdf = [])
    ∧ (pdf ≠ [] →
        load_pdf_text pdf = Except.ok (pdf.map (fun p => p.raw.getD ""))) := by
  cases pdf with
  | nil => simp [load_pdf_text]
  | cons p t => simp [load_pdf_text]

/-! ### C6 — `find_priority_genes` -/

/-- C6: every call of `find_priority_genes` raises `AttributeError`: the
loop reads `self.PRIMARY_GENES` but the class only defines
`PRIORITY_GENES`, so no document ever yields the claimed observation
list. -/
theorem find_priority_genes_always_raises (pages : List String) :
    find_priority_genes pages
      = Except.error
          "AttributeError: PDFExtractor object has no attribute PRIMARY_GENES"
    ∧ find_priority_genes pages ≠ Except.ok (findPriorityGenesClaim pages) := by
  exact ⟨rfl, by simp [find_priority_genes, pdfExtractorGeneListAttr]⟩

/-! ### C7 — the primary context pattern -/

/-- C7: whenever the primary pattern
`(trait words) (gene) ⬤ (result words)` matches the context, both trait
and result are taken (stripped) from that single match; concretely, the
context "Vitamin A Requirement BCMO1 ⬤ High risk" for gene BCMO1 parses
to trait "Vitamin A Requirement" and result "High risk", which cleaning
keeps and normalization maps to "High Risk". -/
theorem context_primary_pattern_scenario :
    (∀ (gene ctx : String) (g1 g2 : List Char),
        searchGenePat gene.data ctx.data = some (g1, g2) →
        parse_trait_result_from_context gene ctx
          = (some (String.mk (stripL g1)), some (String.mk (stripL g2))))
    ∧ parse_trait_result_from_context "BCMO1"
        "Vitamin A Requirement BCMO1 ⬤ High risk"
        = (some "Vitamin A Requirement", some "High risk")
    ∧ clean_trait_result (some "Vitamin A Requirement") (some "High risk")
        = (some "Vitamin A Requirement", some "High risk")
    ∧ normalize_risk (some "High risk") = some "High Risk" := by
  refine ⟨?_, by decide, by decide, by decide⟩
  intro gene ctx g1 g2 h
  unfold parse_trait_result_from_context
  rw [h]

/-! ### C8 — the structured table parser -/

theorem pyIndex?_none_iff (x : String) (l : List String) :
    pyIndex? x l = none ↔ ¬ x ∈ l := by
  induction l with
  | nil => simp [pyIndex?]
  | cons h t ih =>
    by_cases hhx : h = x
    · subst hhx; simp [pyIndex?]
    · have hb : (h == x) = false := beq_false_of_ne hhx
      simp [pyIndex?, hb, ih, Ne.symm hhx]

theorem pyIndex?_lt_length (x : String) (l : List String) (i : Nat)
    (h : pyIndex? x l = some i) : i < l.length := by
  induction l generalizing i with
  | nil => exact absurd h (by simp [pyIndex?])
  | cons hd t ih =>
    by_cases hhx : hd = x
    · subst hhx
      simp [pyIndex?] at h
      subst h
      simp
    · have hb : (hd == x) = false := beq_false_of_ne hhx
      simp [pyIndex?, hb] at h
      rcases h with ⟨j, hj, hij⟩
      have := ih j hj
      simp
      omega

theorem pyIndex?_mem (x : String) (l : List String) (i : Nat)
    (h : pyIndex? x l = some i) : x ∈ l := by
  by_contra hmem
  rw [(pyIndex?_none_iff x l).mpr hmem] at h
  exact absurd h (by simp)

theorem getElem?_replicate_lt {α : Type} (a : α) :
    ∀ (n i : Nat), i < n → (List.replicate n a)[i]? = some a := by
  intro n
  induction n with
  | zero => intro i h; omega
  | succ m ih =>
    intro i h
    cases i with
    | zero => simp [List.replicate]
    | succ j =>
      have hj : j < m := by omega
      simpa [List.replicate] using ih j hj

theorem parseRow_eq (idx : Nat) (header : List String) (tc gc rc : Nat)
    (h1 : pyIndex? "Trait" header = some tc)
    (h2 : pyIndex? "Genes" header = some gc)
    (h3 : pyIndex? "Result" header = some rc)
    (raw_row : List (Option String)) :
    parseRowCode idx header tc gc rc raw_row = parseRowClaim idx header raw_row := by
  unfold parseRowCode parseRowClaim
  rw [h1, h2, h3]
  cases raw_row with
  | cons c t => simp
  | nil =>
    have htc := pyIndex?_lt_length _ _ _ h1
    have hgc := pyIndex?_lt_length _ _ _ h2
    have hrc := pyIndex?_lt_length _ _ _ h3
    have hps : pyStrip (cellStr (some "")) = "" := rfl
    simp [getElem?_replicate_lt _ _ _ htc, getElem?_replicate_lt _ _ _ hgc,
      getElem?_replicate_lt _ _ _ hrc, hps]

theorem parsePage_eq (idx : Nat) (page : Page) :
    parsePageTables idx page = parsePageClaim idx page := by
  unfold parsePageTables parsePageClaim
  cases htab : page.table with
  | none => rfl
  | some table =>
    cases table with
    | nil => simp
    | cons hd tl =>
      simp only [List.isEmpty_cons, List.headD_cons, List.tail_cons,
        if_false, Bool.false_eq_true]
      cases h1 : pyIndex? "Trait" (hd.map headerCell) with
      | none =>
        have hm := (pyIndex?_none_iff _ _).mp h1
        simp [hm]
      | some tc =>
        cases h2 : pyIndex? "Genes" (hd.map headerCell) with
        | none =>
          have hm := (pyIndex?_none_iff _ _).mp h2
          simp [hm]
        | some gc =>
          cases h3 : pyIndex? "Result" (hd.map headerCell) with
          | none =>
            have hm := (pyIndex?_none_iff _ _).mp h3
            simp [hm]
          | some rc =>
            have hm1 := pyIndex?_mem _ _ _ h1
            have hm2 := pyIndex?_mem _ _ _ h2
            have hm3 := pyIndex?_mem _ _ _ h3
            rw [if_pos ⟨hm1, hm2, hm3⟩]
            exact List.flatMap_congr (fun raw _ =>
              parseRow_eq idx (hd.map headerCell) tc gc rc h1 h2 h3 raw)

/-- C8: the Structured Table Parser equals its specification: a page in
the configured range whose trimmed header does not contain all of
"Trait", "Genes" and "Result" (case-sensitive) contributes zero rows
without error, and each body row of an accepted table is padded to
header length, its three fields trimmed, discarded when one is empty,
and otherwise expanded to one SummaryRow per trimmed non-empty
comma-separated gene token, preserving page and row order. -/
theorem structured_table_parser_matches_claim (pdf : List Page) :
    parse_summary_tables pdf = parseSummaryTablesClaim pdf := by
  unfold parse_summary_tables parseSummaryTablesClaim
  have hfun : (fun idx => parsePageTables idx (pdf.getD idx (Page.mk none none)))
      = (fun idx => parsePageClaim idx (pdf.getD idx (Page.mk none none))) :=
    funext (fun idx => parsePage_eq idx _)
  rw [hfun]

/-! ### C4 — trait/result resolution never reads the summary table -/

theorem find_gene_from_name (g : String) :
    ∀ (pages : List String) (i : Nat) (base : GeneData),
      find_gene_from g pages i = some base → base.name = g := by
  intro pages
  induction pages with
  | nil => intro i base h; exact absurd h (by simp [find_gene_from])
  | cons text rest ih =>
    intro i base h
    cases hf : findWordCI g.data text.data none 0 with
    | some j =>
      simp only [find_gene_from, hf, Option.some.injEq] at h
      rw [← h]
    | none =>
      simp only [find_gene_from, hf] at h
      exact ih (i + 1) base h

/-- C4 counterexample: in `pdfDivergent` a SummaryRow for BCMO1 exists
(result "Typical") yet the combined view's BCMO1 observation carries the
context-derived result "High risk" — trait and result are not taken
verbatim from the matching SummaryRow. -/
theorem table_backed_resolution_fails :
    ¬ (∀ obs ∈ priorityGenesView pdfDivergent,
        ∀ row ∈ parse_summary_tables pdfDivergent,
        pyUpper row.gene = pyUpper obs.name →
        obs.trait = some row.trait ∧ obs.result = some row.result) := by
  intro h
  have hobs : GeneData.mk "BCMO1" 1 "Vitamin A Requirement BCMO1 ⬤ High risk"
      (some "Vitamin A Requirement") (some "High risk")
      ∈ priorityGenesView pdfDivergent := by decide
  have hrow : SummaryRow.mk "Vitamin A" "BCMO1" "Typical" 2
      ∈ parse_summary_tables pdfDivergent := by decide
  have hcontra := h _ hobs _ hrow (by decide)
  exact absurd hcontra.2 (by decide)

/-- C4 amended: the combined extraction view resolves every observation's
trait and result from the context heuristic alone; the document's tables
are never consulted, so two documents with the same page texts produce
the same view whatever their tables hold. -/
theorem resolver_ignores_tables (pdf1 pdf2 : List Page)
    (h : pdf1.map Page.raw = pdf2.map Page.raw) :
    get_priority_genes_with_summary pdf1 = get_priority_genes_with_summary pdf2
    ∧ ∀ obs ∈ priorityGenesView pdf1,
        (obs.trait, obs.result)
          = clean_trait_result
              (parse_trait_result_from_context obs.name obs.context).1
              (parse_trait_result_from_context obs.name obs.context).2 := by
  have hp : pdf1.map (fun p => p.raw.getD "")
      = pdf2.map (fun p => p.raw.getD "") := by
    have e1 : pdf1.map (fun p => p.raw.getD "")
        = (pdf1.map Page.raw).map (fun o => o.getD "") := by
      rw [List.map_map]; rfl
    have e2 : pdf2.map (fun p => p.raw.getD "")
        = (pdf2.map Page.raw).map (fun o => o.getD "") := by
      rw [List.map_map]; rfl
    rw [e1, e2, h]
  constructor
  · unfold get_priority_genes_with_summary load_pdf_text
    rw [hp]
  · intro obs hobs
    cases hload : get_priority_genes_with_summary pdf1 with
    | error e => simp only [priorityGenesView, hload] at hobs; exact absurd hobs (by simp)
    | ok l =>
      simp only [priorityGenesView, hload] at hobs
      unfold get_priority_genes_with_summary at hload
      cases hlp : load_pdf_text pdf1 with
      | error e2 =>
        rw [hlp] at hload
        exact absurd hload (by simp)
      | ok pages =>
        rw [hlp] at hload
        injection hload with hl
        subst hl
        rw [List.mem_filterMap] at hobs
        obtain ⟨g, hg, hstep⟩ := hobs
        cases hfg : find_gene pages g with
        | none =>
          simp only [hfg] at hstep
          exact absurd hstep (by simp)
        | some base =>
          simp only [hfg, Option.some.injEq] at hstep
          subst hstep
          have hname : base.name = g := find_gene_from_name g pages 0 base hfg
          rw [hname]

/-- C4 amended, instantiated: removing the tables of `pdfDivergent`
changes nothing in the combined view. -/
theorem resolver_ignores_tables_witness :
    get_priority_genes_with_summary pdfDivergent
        = get_priority_genes_with_summary pdfDivergentNoTable
    ∧ ∀ obs ∈ priorityGenesView pdfDivergent,
        (obs.trait, obs.result)
          = clean_trait_result
              (parse_trait_result_from_context obs.name obs.context).1
              (parse_trait_result_from_context obs.name obs.context).2 :=
  resolver_ignores_tables pdfDivergent pdfDivergentNoTable (by decide)

end NutriCoach
